import Mathlib

/-!
# monday: configuration model and kubernetes forwarder

A shallow embedding of `pkg/config/model.go` (forward types, the proxified
set, path resolution by execution context) and of the kubernetes forwarder
behaviour exercised by `pkg/forwarder/kubernetes/forwarder_test.go`.

Go `string` values are Lean `String`s, that is UTF-8 texts; the bytes that
the embedded functions test (`~`, `$`, braces, ASCII letters and digits) are
ASCII and never occur inside a multi-byte character. A Go `map[K]V` literal is an
association list read with `List.lookup` (the comma-ok lookup), and a Go
map value received as input is an association list with pairwise distinct
keys, listed in one of its iteration orders.
-/

namespace Monday

namespace Config

/-! ## Constants of `model.go` -/

def ExecutableGo : String := "go"

def ForwarderKubernetes : String := "kubernetes"
def ForwarderKubernetesRemote : String := "kubernetes-remote"
def ForwarderProxy : String := "proxy"
def ForwarderSSH : String := "ssh"
def ForwarderSSHRemote : String := "ssh-remote"

/-- AvailableForwarders lists all ready-to-use forwarders. -/
def AvailableForwarders : List (String × Bool) :=
  [ (ForwarderKubernetes, true),
    (ForwarderKubernetesRemote, true),
    (ForwarderProxy, true),
    (ForwarderSSH, true),
    (ForwarderSSHRemote, true) ]

/-- ProxifiedForwarders lists all forwarders that will use the proxy. -/
def ProxifiedForwarders : List (String × Bool) :=
  [ (ForwarderKubernetes, true),
    (ForwarderKubernetesRemote, true),
    (ForwarderProxy, true),
    (ForwarderSSH, true) ]

/-- Go's single-result map index `m[k]` on a `map[string]bool`: the stored
value, or the zero value `false` for an absent key. -/
def mapIndex (m : List (String × Bool)) (k : String) : Bool :=
  match m.lookup k with
  | some v => v
  | none => false

/-- ForwardValues represents the available values for each forward type. -/
structure ForwardValues where
  Context : String
  Namespace : String
  Labels : List (String × String)
  Hostname : String
  ProxyHostname : String
  DisableProxy : Bool
  Ports : List String
  Remote : String
  Args : List String

/-- Forward is a forward rule of a project (the Go field `Type` is spelled
`Type_`, `Type` being reserved). -/
structure Forward where
  Name : String
  Type_ : String
  Values : ForwardValues

/-- IsProxified indicates if the current forward rule will use the proxy. -/
def Forward.IsProxified (f : Forward) : Bool :=
  match ProxifiedForwarders.lookup f.Type_ with
  | some value => if value then !f.Values.DisableProxy else false
  | none => false

/-- Application represents application information. -/
structure Application where
  Name : String
  Path : String
  Executable : String
  Args : List String
  StopExecutable : String
  StopArgs : List String
  Hostname : String
  Watch : Bool
  Env : List (String × String)
  EnvFile : String
  Setup : List String

/-! ## The operating system, as seen by `getValueByExecutionContext`

`os.Getenv` and the outcome of `os.Stat` followed by `os.IsNotExist` are
parameters of the model. -/

/-- The part of the process environment and file system that `model.go`
reads: `Getenv name` is the value of the variable (empty when unset), and
`StatNotExist p` tells whether `os.Stat p` fails with a not-exist error. -/
structure OS where
  Getenv : String → String
  StatNotExist : String → Bool

/-- `strings.Contains s sub` for a one-byte `sub`. -/
def stringsContains (s : String) (sub : Char) : Bool :=
  s.data.elem sub

/-- `strings.Replace s old new (-1)` for a one-byte `old`: every occurrence
of the byte is replaced. -/
def stringsReplace (s : String) (old : Char) (new : String) : String :=
  ⟨s.data.flatMap fun c => if c = old then new.data else [c]⟩

/-- `isShellSpecialVar` of Go's `os` package. -/
def isShellSpecialVar (c : Char) : Bool :=
  ['*', '#', '$', '@', '!', '?', '-',
   '0', '1', '2', '3', '4', '5', '6', '7', '8', '9'].elem c

/-- `isAlphaNum` of Go's `os` package: ASCII letters, digits and underscore. -/
def isAlphaNum (c : Char) : Bool :=
  c = '_' || ('0' ≤ c && c ≤ '9') || ('a' ≤ c && c ≤ 'z') || ('A' ≤ c && c ≤ 'Z')

/-- `getShellName` of Go's `os` package: the name that begins the string and
the number of bytes consumed to extract it. It is called on the non-empty
text after a `$`; on the empty text (where Go would fail on `s[0]`) the model
consumes nothing. Widths are counted in characters; they agree with Go's byte
widths on ASCII names, and a name is cut off identically in both, the
delimiters being ASCII. -/
def getShellName (s : List Char) : List Char × Nat :=
  match s with
  | [] => ([], 0)
  | c :: t =>
    if c = '\x7b' then
      match t with
      | c1 :: c2 :: _ =>
        if isShellSpecialVar c1 && c2 = '\x7d' then ([c1], 3)
        else
          let name := t.takeWhile (fun x => x != '\x7d')
          if name.length < t.length then
            (if name.length = 0 then ([], 2) else (name, name.length + 2))
          else ([], 1)
      | _ =>
        let name := t.takeWhile (fun x => x != '\x7d')
        if name.length < t.length then
          (if name.length = 0 then ([], 2) else (name, name.length + 2))
        else ([], 1)
    else if isShellSpecialVar c then ([c], 1)
    else
      let name := s.takeWhile isAlphaNum
      (name, name.length)

/-- The loop of `os.Expand`. The first argument is the number of characters
still to be skipped (Go's `j += w`); the output is the expansion of what
remains after them. -/
def expandLoop (mapping : String → String) : Nat → List Char → List Char
  | _, [] => []
  | k + 1, _ :: rest => expandLoop mapping k rest
  | 0, c :: rest =>
    if c = '$' ∧ rest ≠ [] then
      let nw := getShellName rest
      let out : List Char :=
        if nw.1 = [] ∧ 0 < nw.2 then []
        else if nw.1 = [] then ['$']
        else (mapping ⟨nw.1⟩).data
      out ++ expandLoop mapping nw.2 rest
    else c :: expandLoop mapping 0 rest

/-- `os.Expand`: replaces `${var}` or `$var` in the string based on the
mapping function. -/
def Expand (s : String) (mapping : String → String) : String :=
  ⟨expandLoop mapping 0 s.data⟩

/-- `os.ExpandEnv`: `Expand` with `os.Getenv` as the mapping. -/
def ExpandEnv (os : OS) (s : String) : String :=
  Expand s os.Getenv

/-- The function `getValueByExecutionContext` of `model.go`. -/
def getValueByExecutionContext (os : OS) (path executable : String) : String :=
  let path := if stringsContains path '~' then stringsReplace path '~' "$HOME" else path
  let path :=
    if executable = ExecutableGo then
      -- First try to use the given directory, else, add the Go's $GOPATH
      if os.StatNotExist path then "$GOPATH/src/" ++ path else path
    else path
  ExpandEnv os path

/-- GetEnvFile returns the filename guessed with current application
environment. -/
def Application.GetEnvFile (os : OS) (a : Application) : String :=
  getValueByExecutionContext os a.EnvFile a.Executable

/-- GetPath returns the path depending on overridden value or not. -/
def Application.GetPath (os : OS) (a : Application) : String :=
  getValueByExecutionContext os a.Path a.Executable

/-- The text starts with a character that continues a shell name. -/
def startsName : List Char → Bool
  | [] => false
  | d :: _ => isAlphaNum d

/-- Every `~` of the text is the last character or is followed by a
character that cannot continue a shell name. -/
def tildeDelimited : List Char → Bool
  | [] => true
  | c :: rest => (c != '~' || !startsName rest) && tildeDelimited rest

end Config

namespace Kubernetes

open Config

/-! ## The kubernetes forwarder

`forwarder.go` is not among the sources; the definitions of this section
follow the specification (§3, §4.1–§4.3, §7) and the expectations of
`forwarder_test.go`. -/

/-- Lexicographic comparison of two strings given by their character codes.
Go compares strings bytewise; on UTF-8 text the bytewise order and the order
by code points coincide. -/
def codesLE : List Nat → List Nat → Bool
  | [], _ => true
  | _ :: _, [] => false
  | a :: as, b :: bs => decide (a < b) || (a == b && codesLE as bs)

/-- The lexicographic order on keys used to sort a label map. -/
def keyLE (a b : String) : Prop :=
  codesLE (a.data.map Char.toNat) (b.data.map Char.toNat) = true

instance keyLE.decidable : DecidableRel keyLE :=
  fun _ _ => inferInstanceAs (Decidable (codesLE _ _ = true))

/-- Modelled from the spec: `BuildSelector`, absent from the sources (§4.1):
the keys of the label map are sorted lexicographically, then joined as
`key=value` pairs with `,`. The map is given by its entries in any iteration
order. -/
def BuildSelector (labels : List (String × String)) : String :=
  let keys := (labels.map Prod.fst).insertionSort keyLE
  String.intercalate "," (keys.map fun k => k ++ "=" ++ (labels.lookup k).getD "")

/-- Modelled from the spec: the states of a Tunnel Session (§3), absent from
the sources. -/
inductive SessionState where
  | Connecting
  | Streaming
  | Closed
  | Failed
  deriving DecidableEq, Repr

/-- Modelled from the spec: a Tunnel Session (§3), absent from the sources:
its target, its port mappings and its state. -/
structure TunnelSession where
  target : String
  ports : List String
  state : SessionState
  deriving DecidableEq, Repr

/-- Modelled from the spec: the error taxonomy of §7, absent from the
sources. `UpgradeFailure` carries the raw response body. -/
inductive ForwardError where
  | Configuration (detail : String)
  | NoMatch (selector : String)
  | NoReadyTarget (selector : String)
  | UpgradeFailure (body : String)
  | ConnectionLost
  deriving DecidableEq, Repr

/-- Modelled from the spec: the text of an error (Go's `Error()`), absent
from the sources. The body of a non-upgraded response is captured verbatim
(§4.3, step 3). -/
def ForwardError.Error : ForwardError → String
  | .Configuration detail => "configuration error: " ++ detail
  | .NoMatch selector => "no match for selector " ++ selector
  | .NoReadyTarget selector => "no ready target for selector " ++ selector
  | .UpgradeFailure body => "unable to upgrade connection: " ++ body
  | .ConnectionLost => "connection lost"

/-- Modelled from the spec: what the per-target forwarding endpoint answers
to the streaming upgrade request (§6), absent from the sources: an upgraded
duplex stream, or a plain response with its status and body. -/
inductive Response where
  | Upgraded
  | Plain (status : Nat) (body : String)
  deriving DecidableEq, Repr

/-- Modelled from the spec: the outcome of one resolution query (§4.1),
absent from the sources: the matching targets, or one of the two resolution
failures. -/
inductive Resolution where
  | Targets (targets : List String)
  | NoReadyTarget
  | NoMatch
  deriving DecidableEq, Repr

/-- Modelled from the spec: the remote platform client (§6, §9), absent from
the sources, as an injectable capability object. `ResolveTargets n scope
selector` is the answer to the resolution query number `n`; `PortForward
scope target ports` is the answer of the forwarding endpoint of a target. -/
structure Client where
  ResolveTargets : Nat → String → String → Resolution
  PortForward : String → String → List String → Response

/-- Modelled from the spec: the runtime Forwarder (§3), absent from the
sources, with the field names read by `forwarder_test.go` (`namespace` is
spelled `namespace_`, the word being reserved). -/
structure Forwarder where
  forwardType : String
  name : String
  context : String
  namespace_ : String
  ports : List String
  labels : List (String × String)
  portForwarders : List TunnelSession
  deployments : List String
  ready : Bool
  client : Client

/-- Modelled from the spec: `NewForwarder`, absent from the sources. The
type must be a member of the known-forwarder set, else the construction is
rejected with a configuration error (§3, §6, §9); the client is obtained
from the connection provider for the context (§4.3), which may fail. A new
Forwarder has no port forwarder and no deployment (`TestNewForwarder`), and
its ready signal is unset. -/
def NewForwarder (provider : String → Option Client)
    (forwardType name context namespace_ : String) (ports : List String)
    (labels : List (String × String)) : Except ForwardError Forwarder :=
  if mapIndex AvailableForwarders forwardType then
    match provider context with
    | some client =>
      .ok { forwardType, name, context, namespace_, ports, labels,
            portForwarders := [], deployments := [], ready := false, client }
    | none => .error (.Configuration ("no connection for context " ++ context))
  else .error (.Configuration ("unknown forward type " ++ forwardType))

/-- Modelled from the spec: `GetForwardType`, absent from the sources: a
pure accessor of the configured backend type (§4.2). -/
def Forwarder.GetForwardType (f : Forwarder) : String :=
  f.forwardType

/-- Modelled from the spec: `getSelector`, absent from the sources: the
selector of the Forwarder's label map (§4.1). -/
def Forwarder.getSelector (f : Forwarder) : String :=
  BuildSelector f.labels

/-- Modelled from the spec: one resolution query (§4.1), absent from the
sources: query number `n` for the Forwarder's scope and selector. At least
one target ends the resolution with these targets, `NoMatch` ends it with an
error that is not retried; zero targets and `NoReadyTarget` are retryable
(`none`). -/
def Forwarder.query (f : Forwarder) (n : Nat) : Option (Except ForwardError (List String)) :=
  match f.client.ResolveTargets n f.namespace_ f.getSelector with
  | .Targets (t :: ts) => some (.ok (t :: ts))
  | .NoMatch => some (.error (.NoMatch f.getSelector))
  | _ => none

/-- Modelled from the spec: target resolution with its bounded retry window
(§4.3, steps 1 and 5), absent from the sources. `resolve window n` makes the
query number `n` and retries a retryable outcome while the window lasts;
when the window has elapsed the resolution fails with `NoReadyTarget`. -/
def Forwarder.resolve (f : Forwarder) : Nat → Nat → Except ForwardError (List String)
  | 0, n =>
    match f.query n with
    | some r => r
    | none => .error (.NoReadyTarget f.getSelector)
  | w + 1, n =>
    match f.query n with
    | some r => r
    | none => f.resolve w (n + 1)

/-- Modelled from the spec: the opening of the Tunnel Session of one target
(§4.3, steps 2 and 3), absent from the sources: an upgraded answer gives a
streaming session, a non-upgraded one is a terminal error of that session
carrying the response body. -/
def Forwarder.openSession (f : Forwarder) (target : String) :
    Except ForwardError TunnelSession :=
  match f.client.PortForward f.namespace_ target f.ports with
  | .Upgraded => .ok { target, ports := f.ports, state := .Streaming }
  | .Plain _ body => .error (.UpgradeFailure body)

/-- The sessions that were established, among the outcomes of `openSession`. -/
def established : List (Except ForwardError TunnelSession) → List TunnelSession
  | [] => []
  | .ok s :: rest => s :: established rest
  | .error _ :: rest => established rest

/-- The first session error, among the outcomes of `openSession`. -/
def firstFailure : List (Except ForwardError TunnelSession) → Option ForwardError
  | [] => none
  | .ok _ :: rest => firstFailure rest
  | .error e :: _ => some e

/-- Modelled from the spec: `Forward`, absent from the sources (§4.2, §4.3).
Targets are resolved, one session is opened per target, the ready signal is
set as soon as one session streams, and an error is returned only when no
session is left active: the resolution error, or the error of the first
session that failed. The result is the returned error (`none` for Go's
`nil`) and the Forwarder afterwards. Stop and teardown are not modelled. -/
def Forwarder.Forward (f : Forwarder) (window : Nat) : Option ForwardError × Forwarder :=
  match f.resolve window 0 with
  | .error e => (some e, f)
  | .ok targets =>
    let outcomes := targets.map f.openSession
    match established outcomes with
    | [] => (firstFailure outcomes, f)
    | s :: ss => (none, { f with portForwarders := s :: ss, ready := true })

end Kubernetes

/-! ## Sample values -/

namespace Sample

open Config Kubernetes

/-- A forward rule of the given type and proxy flag. -/
def forward (type : String) (disableProxy : Bool) : Forward :=
  { Name := "test-forward", Type_ := type,
    Values := { Context := "context-test", Namespace := "backend",
                Labels := [("app", "my-test-app")], Hostname := "",
                ProxyHostname := "", DisableProxy := disableProxy,
                Ports := ["8080:8080"], Remote := "", Args := [] } }

/-- An application with the given path, environment file and executable. -/
def application (path envFile executable : String) : Application :=
  { Name := "api", Path := path, Executable := executable, Args := [],
    StopExecutable := "", StopArgs := [], Hostname := "", Watch := false,
    Env := [], EnvFile := envFile, Setup := [] }

/-- An operating system where `HOME` is `/home/dev`, `GOPATH` is `/go`, no
other variable is set, and exactly the path `/srv/api` exists. -/
def os : OS :=
  { Getenv := fun name =>
      if name = "HOME" then "/home/dev" else if name = "GOPATH" then "/go" else "",
    StatNotExist := fun p => p != "/srv/api" }

/-- The remote platform of `TestForward`: one pod matches every query, and
the forwarding endpoint answers with status 200 and a plain body. -/
def client : Client :=
  { ResolveTargets := fun _ _ _ => .Targets ["my-test-app-bd4sk"],
    PortForward := fun _ _ _ => .Plain 200 "ok, port forward is asked" }

/-- The Forwarder of `TestForward`. -/
def forwarder : Forwarder :=
  { forwardType := "kubernetes", name := "test-forward", context := "context-test",
    namespace_ := "backend", ports := ["8080:8080"], labels := [("app", "my-test-app")],
    portForwarders := [], deployments := [], ready := false, client := client }

end Sample

/-! ## Theorems: forward types -/

namespace Config

/-- The comma-ok lookup in `ProxifiedForwarders`. -/
theorem lookup_ProxifiedForwarders (s : String) :
    ProxifiedForwarders.lookup s =
      if s = "kubernetes" ∨ s = "kubernetes-remote" ∨ s = "proxy" ∨ s = "ssh"
      then some true else none := by
  simp only [ProxifiedForwarders, List.lookup, ForwarderKubernetes,
    ForwarderKubernetesRemote, ForwarderProxy, ForwarderSSH]
  by_cases h1 : s = "kubernetes"
  · subst h1; rfl
  by_cases h2 : s = "kubernetes-remote"
  · subst h2; rfl
  by_cases h3 : s = "proxy"
  · subst h3; rfl
  by_cases h4 : s = "ssh"
  · subst h4; rfl
  have e1 : (s == "kubernetes") = false := by simpa using h1
  have e2 : (s == "kubernetes-remote") = false := by simpa using h2
  have e3 : (s == "proxy") = false := by simpa using h3
  have e4 : (s == "ssh") = false := by simpa using h4
  simp [e1, e2, e3, e4, h1, h2, h3, h4]

/-- The comma-ok lookup in `AvailableForwarders`. -/
theorem lookup_AvailableForwarders (s : String) :
    AvailableForwarders.lookup s =
      if s = "kubernetes" ∨ s = "kubernetes-remote" ∨ s = "proxy" ∨ s = "ssh"
          ∨ s = "ssh-remote"
      then some true else none := by
  simp only [AvailableForwarders, List.lookup, ForwarderKubernetes,
    ForwarderKubernetesRemote, ForwarderProxy, ForwarderSSH, ForwarderSSHRemote]
  by_cases h1 : s = "kubernetes"
  · subst h1; rfl
  by_cases h2 : s = "kubernetes-remote"
  · subst h2; rfl
  by_cases h3 : s = "proxy"
  · subst h3; rfl
  by_cases h4 : s = "ssh"
  · subst h4; rfl
  by_cases h5 : s = "ssh-remote"
  · subst h5; rfl
  have e1 : (s == "kubernetes") = false := by simpa using h1
  have e2 : (s == "kubernetes-remote") = false := by simpa using h2
  have e3 : (s == "proxy") = false := by simpa using h3
  have e4 : (s == "ssh") = false := by simpa using h4
  have e5 : (s == "ssh-remote") = false := by simpa using h5
  simp [e1, e2, e3, e4, e5, h1, h2, h3, h4, h5]

/-- The membership check `AvailableForwarders[t]` accepts exactly the five
known types. -/
theorem AvailableForwarders_known (t : String) :
    mapIndex AvailableForwarders t = true ↔
      t ∈ ["kubernetes", "kubernetes-remote", "proxy", "ssh", "ssh-remote"] := by
  unfold mapIndex
  rw [lookup_AvailableForwarders]
  by_cases h : t = "kubernetes" ∨ t = "kubernetes-remote" ∨ t = "proxy" ∨ t = "ssh"
      ∨ t = "ssh-remote"
  · simp [h]
  · simp [h]

/-- `IsProxified` in closed form: the type is proxified and the proxy is not
disabled. -/
theorem IsProxified_eq (f : Forward) :
    f.IsProxified =
      (decide (f.Type_ = "kubernetes" ∨ f.Type_ = "kubernetes-remote"
        ∨ f.Type_ = "proxy" ∨ f.Type_ = "ssh") && !f.Values.DisableProxy) := by
  unfold Forward.IsProxified
  rw [lookup_ProxifiedForwarders]
  by_cases h : f.Type_ = "kubernetes" ∨ f.Type_ = "kubernetes-remote"
      ∨ f.Type_ = "proxy" ∨ f.Type_ = "ssh"
  · simp [h]
  · simp [h]

/-- C1: with `DisableProxy` false, `IsProxified` is true for the types
kubernetes, kubernetes-remote, ssh and proxy, false for ssh-remote, and any
two forward rules of the same type with the flag false agree, whatever their
names and other values. -/
theorem IsProxified_of_proxy_enabled (f : Forward)
    (h : f.Values.DisableProxy = false) :
    ((f.Type_ = "kubernetes" ∨ f.Type_ = "kubernetes-remote" ∨ f.Type_ = "ssh"
        ∨ f.Type_ = "proxy") → f.IsProxified = true) ∧
    (f.Type_ = "ssh-remote" → f.IsProxified = false) ∧
    (∀ g : Forward, g.Type_ = f.Type_ → g.Values.DisableProxy = false →
        g.IsProxified = f.IsProxified) := by
  refine ⟨?_, ?_, ?_⟩
  · intro ht
    rw [IsProxified_eq, h]
    rcases ht with ht | ht | ht | ht <;> simp [ht]
  · intro ht
    rw [IsProxified_eq, h, ht]
    decide
  · intro g hg hd
    rw [IsProxified_eq, IsProxified_eq, hg, hd, h]

/-- C1 at the forward rule of type kubernetes with the proxy enabled. -/
theorem IsProxified_of_proxy_enabled_witness :
    (Sample.forward "kubernetes" false).Values.DisableProxy = false ∧
    (Sample.forward "kubernetes" false).IsProxified = true :=
  ⟨rfl, (IsProxified_of_proxy_enabled (Sample.forward "kubernetes" false) rfl).1
    (Or.inl rfl)⟩

/-- C2: a forward rule whose `DisableProxy` is set is never proxified,
whatever its type. -/
theorem IsProxified_of_proxy_disabled (f : Forward)
    (h : f.Values.DisableProxy = true) : f.IsProxified = false := by
  rw [IsProxified_eq, h]
  simp

/-- C2 at the forward rule of type ssh with the proxy disabled. -/
theorem IsProxified_of_proxy_disabled_witness :
    (Sample.forward "ssh" true).Values.DisableProxy = true ∧
    (Sample.forward "ssh" true).IsProxified = false :=
  ⟨rfl, IsProxified_of_proxy_disabled (Sample.forward "ssh" true) rfl⟩

/-- C3: a forward rule whose type is not in the proxified set is not
proxified, whatever its `DisableProxy` flag. -/
theorem IsProxified_of_not_proxified_type (f : Forward)
    (h : f.Type_ ∉ ["kubernetes", "kubernetes-remote", "proxy", "ssh"]) :
    f.IsProxified = false := by
  rw [IsProxified_eq]
  have h' : ¬ (f.Type_ = "kubernetes" ∨ f.Type_ = "kubernetes-remote"
      ∨ f.Type_ = "proxy" ∨ f.Type_ = "ssh") := by
    simpa using h
  simp [h']

/-- C3 at the forward rule of type ssh-remote with the proxy enabled. -/
theorem IsProxified_of_not_proxified_type_witness :
    (Sample.forward "ssh-remote" false).Type_
        ∉ ["kubernetes", "kubernetes-remote", "proxy", "ssh"] ∧
    (Sample.forward "ssh-remote" false).IsProxified = false :=
  ⟨by decide, IsProxified_of_not_proxified_type (Sample.forward "ssh-remote" false)
    (by decide)⟩

/-- C9: `AvailableForwarders` maps exactly the five known type strings to
true and has no entry for any other string, so the membership check
`AvailableForwarders[t]` is true exactly for the five known types. -/
theorem AvailableForwarders_exactly_five (t : String) :
    (AvailableForwarders.lookup t =
      if t ∈ ["kubernetes", "kubernetes-remote", "proxy", "ssh", "ssh-remote"]
      then some true else none) ∧
    (mapIndex AvailableForwarders t = true ↔
      t ∈ ["kubernetes", "kubernetes-remote", "proxy", "ssh", "ssh-remote"]) := by
  have hm : t ∈ ["kubernetes", "kubernetes-remote", "proxy", "ssh", "ssh-remote"] ↔
      (t = "kubernetes" ∨ t = "kubernetes-remote" ∨ t = "proxy" ∨ t = "ssh"
        ∨ t = "ssh-remote") := by simp
  unfold mapIndex
  rw [lookup_AvailableForwarders]
  by_cases h : t = "kubernetes" ∨ t = "kubernetes-remote" ∨ t = "proxy" ∨ t = "ssh"
      ∨ t = "ssh-remote"
  · simp [hm, h]
  · simp [hm, h]

end Config

/-! ## Theorems: path resolution -/


namespace Config

/-- Skipping `k` characters in the loop of `Expand` is dropping them. -/
theorem expandLoop_skip (mapping : String → String) (k : Nat) (s : List Char) :
    expandLoop mapping k s = expandLoop mapping 0 (s.drop k) := by
  induction k generalizing s with
  | zero => simp
  | succ k ih =>
    cases s with
    | nil => simp [expandLoop]
    | cons c rest => simp [expandLoop, ih]

/-- The expansion of a text that starts with `$GOPATH/src/`. -/
theorem expandLoop_gopath (mapping : String → String) (q : List Char) :
    expandLoop mapping 0 ("$GOPATH/src/".data ++ q) =
      (mapping "GOPATH").data ++ ("/src/".data ++ expandLoop mapping 0 q) := by
  have h : "$GOPATH/src/".data =
      ['$', 'G', 'O', 'P', 'A', 'T', 'H', '/', 's', 'r', 'c', '/'] := rfl
  rw [h]
  simp [expandLoop, getShellName, isShellSpecialVar, isAlphaNum, List.takeWhile]

/-- `ExpandEnv` of `$GOPATH/src/` followed by a path: the value of `GOPATH`,
then `/src/`, then the expansion of the path. -/
theorem ExpandEnv_gopath (os : OS) (p : String) :
    ExpandEnv os ("$GOPATH/src/" ++ p) =
      os.Getenv "GOPATH" ++ "/src/" ++ ExpandEnv os p := by
  apply String.ext
  simp only [ExpandEnv, Expand, String.data_append]
  rw [expandLoop_gopath, List.append_assoc]

/-- Replacing `~` in a path without `~` changes nothing, so the guard
`strings.Contains` of `getValueByExecutionContext` is immaterial. -/
theorem stringsReplace_of_not_contains (p : String) (old : Char) (new : String)
    (h : stringsContains p old = false) : stringsReplace p old new = p := by
  apply String.ext
  simp only [stringsReplace]
  simp only [stringsContains, List.elem_eq_mem, decide_eq_false_iff_not] at h
  generalize p.data = l at h
  induction l with
  | nil => rfl
  | cons c rest ih =>
    have hc : c ≠ old := fun e => h (by simp [e])
    have hr : old ∉ rest := fun e => h (by simp [e])
    simp only [List.flatMap_cons, if_neg hc, List.singleton_append]
    rw [ih hr]

/-- The first step of `getValueByExecutionContext` is the substitution of
every `~`. -/
theorem tilde_step (p : String) :
    (if stringsContains p '~' then stringsReplace p '~' "$HOME" else p) =
      stringsReplace p '~' "$HOME" := by
  by_cases h : stringsContains p '~' = true
  · simp [h]
  · have h' : stringsContains p '~' = false := by simpa using h
    rw [stringsReplace_of_not_contains p '~' "$HOME" h']
    simp [h']

/-- The substituted text of a path that does not start a shell name does not
start one either. -/
theorem takeWhile_substituted (l : List Char) (h : startsName l = false) :
    (l.flatMap fun c => if c = '~' then "$HOME".data else [c]).takeWhile isAlphaNum = [] := by
  cases l with
  | nil => rfl
  | cons d r =>
    simp only [startsName] at h
    by_cases hd : d = '~'
    · subst hd
      rfl
    · simp only [List.flatMap_cons, if_neg hd, List.singleton_append]
      rw [List.takeWhile_cons, h]
      simp

/-- On a text without `$` whose tildes are delimited, expanding the
substituted text replaces every `~` by the value of `HOME`. -/
theorem expandLoop_substituted (mapping : String → String) (l : List Char)
    (hd : '$' ∉ l) (ht : tildeDelimited l = true) :
    expandLoop mapping 0 (l.flatMap fun c => if c = '~' then "$HOME".data else [c]) =
      l.flatMap fun c => if c = '~' then (mapping "HOME").data else [c] := by
  induction l with
  | nil => rfl
  | cons c rest ih =>
    have hc : c ≠ '$' := fun e => hd (by simp [e])
    have hr : '$' ∉ rest := fun e => hd (by simp [e])
    simp only [tildeDelimited, Bool.and_eq_true] at ht
    have ih' := ih hr ht.2
    by_cases h : c = '~'
    · subst h
      have hnext : startsName rest = false := by simpa using ht.1
      have htw := takeWhile_substituted rest hnext
      have hH : "$HOME".data = ['$', 'H', 'O', 'M', 'E'] := rfl
      have hM : (⟨['H', 'O', 'M', 'E']⟩ : String) = "HOME" := rfl
      rw [hH] at htw ih'
      simp only [List.flatMap_cons, if_true]
      simp [expandLoop, getShellName, isShellSpecialVar, isAlphaNum, List.takeWhile, htw, hM, ih']
    · simp only [List.flatMap_cons, if_neg h, List.singleton_append]
      rw [expandLoop]
      simp [hc, ih']

/-- Where `GetPath` does replace the tildes: for an application whose
executable is not `go` and whose path has no `$`, if every `~` of the path is
its last character or is followed by a character other than an ASCII letter,
digit or underscore, `GetPath` is the path with every `~` replaced by the
value of `HOME`. -/
theorem GetPath_tilde_delimited (os : OS) (a : Application)
    (hexe : a.Executable ≠ "go") (hd : stringsContains a.Path '$' = false)
    (ht : tildeDelimited a.Path.data = true) :
    a.GetPath os = stringsReplace a.Path '~' (os.Getenv "HOME") := by
  unfold Application.GetPath getValueByExecutionContext
  simp only [tilde_step, ExecutableGo, if_neg hexe]
  apply String.ext
  simp only [ExpandEnv, Expand, stringsReplace]
  apply expandLoop_substituted
  · simpa [stringsContains] using hd
  · exact ht

/-- The tilde replacement at the application of path `~/api`. -/
theorem GetPath_tilde_delimited_witness :
    (Sample.application "~/api" "" "sh").GetPath Sample.os = "/home/dev/api" :=
  (GetPath_tilde_delimited Sample.os (Sample.application "~/api" "" "sh")
    (by decide) (by decide) (by decide)).trans (by decide)

/-- C8: for an application whose executable is `go` and whose
tilde-substituted path does not exist on disk, `GetPath` is the environment
expansion of `$GOPATH/src/` followed by the tilde-substituted path, that is
the value of `GOPATH`, then `/src/`, then the expansion of the
tilde-substituted path; when the path exists or the executable is not `go`,
`GetPath` is the expansion of the tilde-substituted path alone. -/
theorem GetPath_go_module_root (os : OS) (a : Application) :
    (a.Executable = "go" →
      os.StatNotExist (stringsReplace a.Path '~' "$HOME") = true →
        a.GetPath os = ExpandEnv os ("$GOPATH/src/" ++ stringsReplace a.Path '~' "$HOME") ∧
        a.GetPath os =
          os.Getenv "GOPATH" ++ "/src/" ++ ExpandEnv os (stringsReplace a.Path '~' "$HOME")) ∧
    (a.Executable ≠ "go" ∨ os.StatNotExist (stringsReplace a.Path '~' "$HOME") = false →
      a.GetPath os = ExpandEnv os (stringsReplace a.Path '~' "$HOME")) := by
  refine ⟨?_, ?_⟩
  · intro hgo hne
    have key : a.GetPath os =
        ExpandEnv os ("$GOPATH/src/" ++ stringsReplace a.Path '~' "$HOME") := by
      unfold Application.GetPath getValueByExecutionContext
      simp only [tilde_step, ExecutableGo, hgo, hne, if_true]
    exact ⟨key, key.trans (ExpandEnv_gopath os _)⟩
  · intro h
    unfold Application.GetPath getValueByExecutionContext
    simp only [tilde_step, ExecutableGo]
    rcases h with h | h
    · simp only [if_neg h]
    · simp only [h]
      split <;> simp

/-- C8 at a `go` application whose path `~/api` does not exist, and at one
whose path `/srv/api` exists. -/
theorem GetPath_go_module_root_witness :
    (Sample.application "~/api" "" "go").GetPath Sample.os = "/go/src//home/dev/api" ∧
    (Sample.application "/srv/api" "" "go").GetPath Sample.os = "/srv/api" :=
  ⟨((GetPath_go_module_root Sample.os (Sample.application "~/api" "" "go")).1
      rfl (by decide)).2.trans (by decide),
   ((GetPath_go_module_root Sample.os (Sample.application "/srv/api" "" "go")).2
      (Or.inr (by decide))).trans (by decide)⟩

/-- C10: `GetEnvFile` resolves the environment file as `GetPath` resolves the
path, for every `EnvFile`: it is the `GetPath` of any application with that
text as path and the same executable. For an application whose executable
is `go` and whose `EnvFile` is empty, the empty path not existing,
`GetEnvFile` is the expansion of `$GOPATH/src/`, that is the value of
`GOPATH` followed by `/src/`, and is not empty; for another executable an
empty `EnvFile` gives the empty string. -/
theorem GetEnvFile_empty (os : OS) (a : Application) :
    (∀ b : Application, b.Path = a.EnvFile → b.Executable = a.Executable →
      a.GetEnvFile os = b.GetPath os) ∧
    (a.EnvFile = "" → a.Executable = "go" → os.StatNotExist "" = true →
      a.GetEnvFile os = ExpandEnv os "$GOPATH/src/" ∧
      a.GetEnvFile os = os.Getenv "GOPATH" ++ "/src/" ∧
      a.GetEnvFile os ≠ "") ∧
    (a.EnvFile = "" → a.Executable ≠ "go" → a.GetEnvFile os = "") := by
  refine ⟨?_, ?_, ?_⟩
  · intro b hp hx
    unfold Application.GetEnvFile Application.GetPath
    rw [hp, hx]
  · intro he hgo hne
    have h1 : a.GetEnvFile os = ExpandEnv os "$GOPATH/src/" := by
      unfold Application.GetEnvFile getValueByExecutionContext
      simp only [tilde_step, ExecutableGo, he, hgo, if_true]
      have : stringsReplace "" '~' "$HOME" = "" := rfl
      simp only [this, hne, if_true]
      rfl
    have h2 : ExpandEnv os "$GOPATH/src/" = os.Getenv "GOPATH" ++ "/src/" := by
      have := ExpandEnv_gopath os ""
      have e : ExpandEnv os "" = "" := rfl
      rw [e] at this
      simpa using this
    refine ⟨h1, h1.trans h2, ?_⟩
    rw [h1, h2]
    intro h
    have := congrArg String.length h
    simp at this
    exact absurd this.2 (by decide)
  · intro he hgo
    unfold Application.GetEnvFile getValueByExecutionContext
    simp only [tilde_step, ExecutableGo, he, if_neg hgo]
    rfl

/-- C10 at a `go` application without environment file, at an application
of another executable without environment file, and at an application whose
environment file `~/.env` is resolved as the path `~/.env` is. -/
theorem GetEnvFile_empty_witness :
    (Sample.application "/srv/api" "" "go").GetEnvFile Sample.os = "/go/src/" ∧
    (Sample.application "/srv/api" "" "sh").GetEnvFile Sample.os = "" ∧
    (Sample.application "/srv/api" "~/.env" "sh").GetEnvFile Sample.os = "/home/dev/.env" :=
  ⟨((GetEnvFile_empty Sample.os (Sample.application "/srv/api" "" "go")).2.1
      rfl rfl (by decide)).2.1.trans (by decide),
   (GetEnvFile_empty Sample.os (Sample.application "/srv/api" "" "sh")).2.2
      rfl (by decide),
   ((GetEnvFile_empty Sample.os (Sample.application "/srv/api" "~/.env" "sh")).1
      (Sample.application "~/.env" "" "sh") rfl rfl).trans (by decide)⟩

/-- C7 fails on the code: the application with executable `sh` and path
`~a/b` has a path with `~` and without `$`; replacing every `~` by the value
of `HOME` gives `/home/deva/b`, while `GetPath` expands `$HOMEa/b`, reads the
unset variable `HOMEa` and returns `/b`. -/
theorem GetPath_tilde_before_letter :
    (Sample.application "~a/b" "" "sh").Executable ≠ "go" ∧
    stringsContains (Sample.application "~a/b" "" "sh").Path '~' = true ∧
    stringsContains (Sample.application "~a/b" "" "sh").Path '$' = false ∧
    stringsReplace (Sample.application "~a/b" "" "sh").Path '~' (Sample.os.Getenv "HOME")
      = "/home/deva/b" ∧
    (Sample.application "~a/b" "" "sh").GetPath Sample.os = "/b" := by
  decide

end Config

/-! ## Theorems: the kubernetes forwarder -/

namespace Kubernetes

open Config

/-- The comparison of codes is reflexive. -/
theorem codesLE_refl (a : List Nat) : codesLE a a = true := by
  induction a with
  | nil => rfl
  | cons x xs ih => simp [codesLE, ih]

/-- The comparison of codes is total. -/
theorem codesLE_total (a b : List Nat) : codesLE a b = true ∨ codesLE b a = true := by
  induction a generalizing b with
  | nil => left; rfl
  | cons x xs ih =>
    cases b with
    | nil => right; rfl
    | cons y ys =>
      simp only [codesLE, Bool.or_eq_true, Bool.and_eq_true, decide_eq_true_eq, beq_iff_eq]
      rcases Nat.lt_trichotomy x y with h | h | h
      · left; left; exact h
      · rcases ih ys with h' | h'
        · left; right; exact ⟨h, h'⟩
        · right; right; exact ⟨h.symm, h'⟩
      · right; left; exact h

/-- The comparison of codes is transitive. -/
theorem codesLE_trans (a b c : List Nat) (hab : codesLE a b = true)
    (hbc : codesLE b c = true) : codesLE a c = true := by
  induction a generalizing b c with
  | nil => rfl
  | cons x xs ih =>
    cases b with
    | nil => simp [codesLE] at hab
    | cons y ys =>
      cases c with
      | nil => simp [codesLE] at hbc
      | cons z zs =>
        simp only [codesLE, Bool.or_eq_true, Bool.and_eq_true, decide_eq_true_eq,
          beq_iff_eq] at hab hbc ⊢
        rcases hab with h1 | ⟨h1, h1'⟩
        · rcases hbc with h2 | ⟨h2, _⟩
          · left; omega
          · left; omega
        · rcases hbc with h2 | ⟨h2, h2'⟩
          · left; omega
          · right; exact ⟨h1.trans h2, ih ys zs h1' h2'⟩

/-- The comparison of codes is antisymmetric. -/
theorem codesLE_antisymm (a b : List Nat) (hab : codesLE a b = true)
    (hba : codesLE b a = true) : a = b := by
  induction a generalizing b with
  | nil =>
    cases b with
    | nil => rfl
    | cons y ys => simp [codesLE] at hba
  | cons x xs ih =>
    cases b with
    | nil => simp [codesLE] at hab
    | cons y ys =>
      simp only [codesLE, Bool.or_eq_true, Bool.and_eq_true, decide_eq_true_eq,
        beq_iff_eq] at hab hba
      rcases hab with h1 | ⟨h1, h1'⟩
      · rcases hba with h2 | ⟨h2, _⟩ <;> omega
      · rcases hba with h2 | ⟨_, h2'⟩
        · omega
        · rw [h1, ih ys h1' h2']

/-- A string is determined by the codes of its characters. -/
theorem codes_injective (a b : String)
    (h : a.data.map Char.toNat = b.data.map Char.toNat) : a = b := by
  apply String.ext
  have hinj : Function.Injective Char.toNat := by
    intro x y hxy
    apply Char.ext
    apply UInt32.ext
    simpa [Char.toNat, UInt32.toNat] using hxy
  exact List.map_injective_iff.mpr hinj h

/-- The order on keys is total. -/
theorem keyLE_isTotal : IsTotal String keyLE :=
  ⟨fun _ _ => codesLE_total _ _⟩

/-- The order on keys is transitive. -/
theorem keyLE_isTrans : IsTrans String keyLE :=
  ⟨fun _ _ _ hab hbc => codesLE_trans _ _ _ hab hbc⟩

/-- The order on keys is antisymmetric. -/
theorem keyLE_isAntisymm : IsAntisymm String keyLE :=
  ⟨fun a b hab hba => codes_injective a b (codesLE_antisymm _ _ hab hba)⟩

/-- Two lists of keys with the same elements have the same sorted list. -/
theorem sorted_keys_unique (k₁ k₂ : List String) (hp : k₁.Perm k₂) :
    k₁.insertionSort keyLE = k₂.insertionSort keyLE := by
  haveI := keyLE_isTotal
  haveI := keyLE_isTrans
  haveI := keyLE_isAntisymm
  apply List.eq_of_perm_of_sorted (r := keyLE)
  · exact (List.perm_insertionSort keyLE k₁).trans (hp.trans (List.perm_insertionSort keyLE k₂).symm)
  · exact List.sorted_insertionSort keyLE k₁
  · exact List.sorted_insertionSort keyLE k₂

/-- In a map, the lookup of the key of an entry is the value of the entry. -/
theorem lookup_of_mem (labels : List (String × String))
    (hn : (labels.map Prod.fst).Nodup) (k v : String) (h : (k, v) ∈ labels) :
    labels.lookup k = some v := by
  induction labels with
  | nil => simp at h
  | cons e rest ih =>
    obtain ⟨k', v'⟩ := e
    simp only [List.map_cons, List.nodup_cons] at hn
    rcases List.mem_cons.mp h with h | h
    · cases h
      simp [List.lookup]
    · have hk : k ≠ k' := by
        intro e
        apply hn.1
        rw [← e]
        exact List.mem_map.mpr ⟨(k, v), h, rfl⟩
      have hb : (k == k') = false := by simpa using hk
      simp only [List.lookup, hb]
      exact ih hn.2 h

/-- The lookup of a key does not depend on the iteration order of the map. -/
theorem lookup_perm (l₁ l₂ : List (String × String)) (hp : l₁.Perm l₂)
    (hn : (l₂.map Prod.fst).Nodup) (k : String) (hk : k ∈ l₂.map Prod.fst) :
    l₁.lookup k = l₂.lookup k := by
  obtain ⟨⟨k', v⟩, hm, rfl⟩ := List.mem_map.mp hk
  have hn₁ : (l₁.map Prod.fst).Nodup := ((hp.map Prod.fst).nodup_iff).mpr hn
  rw [lookup_of_mem l₂ hn k' v hm, lookup_of_mem l₁ hn₁ k' v (hp.mem_iff.mpr hm)]

/-- C4: for a label map given by its entries `labels` (pairwise distinct
keys, any iteration order), the selector is the `,`-join of the `key=value`
renderings of the entries taken in lexicographic key order, an order in
which they can always be listed; every other iteration order of the same
entries gives the same selector; `getSelector`
of a Forwarder is the selector of its labels; the empty map gives the empty
string and the map with the single label app: my-test-app gives
`app=my-test-app`. -/
theorem BuildSelector_sorted_by_key (labels : List (String × String))
    (hn : (labels.map Prod.fst).Nodup) :
    (∀ entries : List (String × String),
      entries.Perm labels → (entries.map Prod.fst).Sorted keyLE →
      BuildSelector labels =
        String.intercalate "," (entries.map fun kv => kv.1 ++ "=" ++ kv.2)) ∧
    (∃ entries : List (String × String),
      entries.Perm labels ∧ (entries.map Prod.fst).Sorted keyLE) ∧
    (∀ other : List (String × String), other.Perm labels →
      BuildSelector other = BuildSelector labels) ∧
    (∀ f : Forwarder, f.labels = labels → f.getSelector = BuildSelector labels) ∧
    BuildSelector [] = "" ∧
    BuildSelector [("app", "my-test-app")] = "app=my-test-app" := by
  haveI := keyLE_isTotal
  haveI := keyLE_isTrans
  refine ⟨?_, ?_, ?_, ?_, by decide, by decide⟩
  · intro entries hperm hsorted
    have hkeys : (labels.map Prod.fst).insertionSort keyLE = entries.map Prod.fst := by
      rw [sorted_keys_unique _ _ (hperm.map Prod.fst).symm]
      exact List.Sorted.insertionSort_eq hsorted
    unfold BuildSelector
    simp only [hkeys, List.map_map]
    congr 1
    apply List.map_congr_left
    intro kv hkv
    obtain ⟨k, v⟩ := kv
    simp only [Function.comp_apply]
    rw [lookup_of_mem labels hn k v (hperm.mem_iff.mp hkv)]
    rfl
  · let r : String × String → String × String → Prop := fun a b => keyLE a.1 b.1
    haveI : IsTotal (String × String) r := ⟨fun a b => keyLE_isTotal.total a.1 b.1⟩
    haveI : IsTrans (String × String) r := ⟨fun a b c => keyLE_isTrans.trans a.1 b.1 c.1⟩
    exact ⟨labels.insertionSort r, List.perm_insertionSort r labels,
      List.pairwise_map.mpr (List.sorted_insertionSort r labels)⟩
  · intro other hp
    unfold BuildSelector
    simp only [sorted_keys_unique _ _ (hp.map Prod.fst)]
    congr 1
    apply List.map_congr_left
    intro k hk
    have hk' : k ∈ labels.map Prod.fst :=
      (List.perm_insertionSort keyLE _).mem_iff.mp hk
    rw [lookup_perm other labels hp hn k hk']
  · intro f hf
    rw [Forwarder.getSelector, hf]

/-- C4 at the map with the labels tier: web and app: x, in both iteration
orders. -/
theorem BuildSelector_sorted_by_key_witness :
    ([("app", "x"), ("tier", "web")].map Prod.fst).Nodup ∧
    BuildSelector [("tier", "web"), ("app", "x")] = "app=x,tier=web" :=
  ⟨by decide,
   ((BuildSelector_sorted_by_key [("app", "x"), ("tier", "web")] (by decide)).2.2.1
      [("tier", "web"), ("app", "x")] (by decide)).trans (by decide)⟩

/-- C6: for each of the five known forward types and all other arguments,
`NewForwarder` either returns a Forwarder whose `GetForwardType` is the type
passed, with no port forwarder and no deployment, or fails, which happens
only when the connection provider has no client for the context. -/
theorem NewForwarder_GetForwardType (provider : String → Option Client)
    (forwardType name context namespace_ : String) (ports : List String)
    (labels : List (String × String))
    (ht : forwardType ∈
      ["kubernetes", "kubernetes-remote", "proxy", "ssh", "ssh-remote"]) :
    match NewForwarder provider forwardType name context namespace_ ports labels with
    | .ok f => f.GetForwardType = forwardType ∧ f.portForwarders = [] ∧ f.deployments = []
    | .error _ => provider context = none := by
  have hk : mapIndex AvailableForwarders forwardType = true :=
    (AvailableForwarders_known forwardType).mpr ht
  unfold NewForwarder
  rw [if_pos hk]
  cases hp : provider context with
  | none => rfl
  | some c => exact ⟨rfl, rfl, rfl⟩

/-- C6 at the construction of `TestGetForwardType`. -/
theorem NewForwarder_GetForwardType_witness :
    "kubernetes-remote" ∈ ["kubernetes", "kubernetes-remote", "proxy", "ssh", "ssh-remote"] ∧
    (match NewForwarder (fun _ => some Sample.client) "kubernetes-remote" "test-forward"
        "context-test" "platform" ["8080:8080"] [("app", "my-test-app")] with
     | .ok f => f.GetForwardType = "kubernetes-remote" ∧ f.portForwarders = []
         ∧ f.deployments = []
     | .error _ => (fun _ : String => some Sample.client) "context-test" = none) :=
  ⟨by decide,
   NewForwarder_GetForwardType (fun _ => some Sample.client) "kubernetes-remote"
     "test-forward" "context-test" "platform" ["8080:8080"] [("app", "my-test-app")]
     (by decide)⟩

/-- C5: for a Forwarder whose first resolution query finds at least one pod,
if the forwarding endpoint answers each of these pods with a plain,
non-upgraded response of body `b`, then `Forward` returns an error whose text
contains `b`. -/
theorem Forward_plain_response (f : Forwarder) (window status : Nat) (b : String)
    (pod : String) (pods : List String)
    (hpods : f.client.ResolveTargets 0 f.namespace_ f.getSelector = .Targets (pod :: pods))
    (hplain : ∀ target ∈ pod :: pods,
      f.client.PortForward f.namespace_ target f.ports = .Plain status b) :
    ∃ e : ForwardError, (f.Forward window).1 = some e ∧ b.data <:+: e.Error.data := by
  have hres : f.resolve window 0 = .ok (pod :: pods) := by
    have hq : f.query 0 = some (.ok (pod :: pods)) := by
      unfold Forwarder.query
      rw [hpods]
    cases window with
    | zero => simp [Forwarder.resolve, hq]
    | succ w => simp [Forwarder.resolve, hq]
  have hopen : ∀ l : List String, (∀ target ∈ l,
      f.client.PortForward f.namespace_ target f.ports = .Plain status b) →
      l.map f.openSession = l.map fun _ => .error (.UpgradeFailure b) := by
    intro l hl
    apply List.map_congr_left
    intro target ht
    unfold Forwarder.openSession
    rw [hl target ht]
  have hest : ∀ l : List String,
      established (l.map fun _ => (.error (.UpgradeFailure b) : Except ForwardError TunnelSession))
        = [] := by
    intro l
    induction l with
    | nil => rfl
    | cons x xs ih => simpa [established] using ih
  refine ⟨.UpgradeFailure b, ?_, ?_⟩
  · unfold Forwarder.Forward
    rw [hres]
    simp only [hopen (pod :: pods) hplain, hest]
    rfl
  · exact ⟨"unable to upgrade connection: ".data, [], by simp [ForwardError.Error]⟩

/-- C5 at the Forwarder and the remote platform of `TestForward`. -/
theorem Forward_plain_response_witness :
    ∃ e : ForwardError, (Sample.forwarder.Forward 3).1 = some e ∧
      "ok, port forward is asked".data <:+: e.Error.data :=
  Forward_plain_response Sample.forwarder 3 200 "ok, port forward is asked"
    "my-test-app-bd4sk" [] rfl (fun _ _ => rfl)

end Kubernetes

end Monday
